import Mathlib

/-!
Verification of the strategy-hunter analytics core: the strategy
payoff/Greeks analyzer, the breakeven locator, the volatility
calculators (historical volatility and IV rank/percentile), the live
option-chain assembly, and the batched snapshot index.

Floating-point arithmetic of the source is modelled by exact arithmetic:
`ℚ` for the strategy analyzer, IV indicators and option chain, `ℝ` for
the historical-volatility pipeline (which uses `log` and `sqrt`).
Python dictionaries with possibly-missing keys are modelled by `Option`
fields, raised exceptions by `Except`.
-/

namespace StrategyHunter

/-- Python `round` to 2 decimal places: ties round half to even. -/
def pyRound2 (x : ℚ) : ℚ :=
  let y := x * 100
  let f : ℤ := ⌊y⌋
  let r := y - (f : ℚ)
  (if r < 1/2 then (f : ℚ) else if r > 1/2 then (f : ℚ) + 1
   else if 2 ∣ f then (f : ℚ) else (f : ℚ) + 1) / 100

/-! ### Data model of the strategy analyzer

Mirrors `backend/app/services/strategy_service.py`
(`analyze_strategy_performance`) and `backend/strategy_analyzer.py`
(`analyze_strategy`); the two implement the same computation. -/

/-- A strategy leg as requested by the user (schema `OptionLeg`): the
action is an arbitrary string, constrained by the schema only to be a
string. -/
structure OptionLeg where
  option_ticker : String
  action : String
  quantity : ℤ
deriving DecidableEq

/-- A quote, `snap["last_quote"]`. -/
structure LastQuote where
  bid : ℚ
  ask : ℚ
deriving DecidableEq

/-- Greeks of one contract, `snap["greeks"]`. -/
structure Greeks where
  delta : ℚ
  gamma : ℚ
  theta : ℚ
  vega : ℚ
deriving DecidableEq

/-- Contract reference data, `snap["details"]`. -/
structure SnapDetails where
  strike_price : ℚ
  contract_type : String
deriving DecidableEq

/-- A market snapshot record as found in the snapshot map.  `none`
fields model keys that are absent (or, for `greeks`, falsy); accessing
such a key with `[]` raises a `KeyError` in the source, which the
analyzer's blanket `except` turns into a 500 error. -/
structure Snapshot where
  error : Bool
  greeks : Option Greeks
  last_quote : Option LastQuote
  details : Option SnapDetails
  session_close : Option ℚ
  last_trade_price : Option ℚ
deriving DecidableEq

/-- The `{"error": ..., "status_code": ...}` dictionaries returned on
failure. -/
structure AnalysisError where
  message : String
  status_code : ℕ
deriving DecidableEq

deriving instance DecidableEq for Except

/-- A point of the P/L chart. -/
structure PayoffPoint where
  price_at_expiration : ℚ
  profit_loss : ℚ
deriving DecidableEq

/-- A processed leg, `processed_legs` entries. -/
structure ProcessedLeg where
  strike : ℚ
  type : String
  cost_per_share : ℚ
  quantity : ℤ
deriving DecidableEq

/-- The analysis output. -/
structure AnalyzedStrategy where
  max_profit : ℚ
  max_loss : ℚ
  breakeven_points : List ℚ
  net_cost : ℚ
  position_delta : ℚ
  position_gamma : ℚ
  position_theta : ℚ
  position_vega : ℚ
  pl_chart_data : List PayoffPoint
deriving DecidableEq

/-- `str.upper()`, character by character (ASCII suffices here). -/
def upperString (s : String) : String :=
  ⟨s.data.map Char.toUpper⟩

/-- `sign = 1 if leg.action.upper() == "BUY" else -1`. -/
def legSign (action : String) : ℚ :=
  if upperString action = "BUY" then 1 else -1

/-- Everything the per-leg loop body reads from a valid snapshot. -/
structure ResolvedLeg where
  sign : ℚ
  mid_price : ℚ
  quantity : ℤ
  greeks : Greeks
  strike : ℚ
  type : String
deriving DecidableEq

instance : Inhabited ResolvedLeg := ⟨⟨1, 0, 0, ⟨0, 0, 0, 0⟩, 0, ""⟩⟩

/-- One iteration of the per-leg loop.  The guard
`if not snap or snap.get("error") or not snap.get("greeks")` yields the
400 error naming the leg; a later `KeyError` on `last_quote` or
`details` falls into the blanket `except` clause, a 500 error. -/
def resolveLeg (m : String → Option Snapshot) (leg : OptionLeg) :
    Except AnalysisError ResolvedLeg :=
  match m leg.option_ticker with
  | none =>
      .error ⟨"Could not find valid snapshot data for leg: " ++ leg.option_ticker, 400⟩
  | some snap =>
      if snap.error then
        .error ⟨"Could not find valid snapshot data for leg: " ++ leg.option_ticker, 400⟩
      else
        match snap.greeks with
        | none =>
            .error ⟨"Could not find valid snapshot data for leg: " ++ leg.option_ticker, 400⟩
        | some gks =>
            match snap.last_quote with
            | none =>
                .error ⟨"An unexpected error occurred during analysis: KeyError last_quote", 500⟩
            | some q =>
                match snap.details with
                | none =>
                    .error ⟨"An unexpected error occurred during analysis: KeyError details", 500⟩
                | some d =>
                    .ok ⟨legSign leg.action, (q.bid + q.ask) / 2, leg.quantity,
                         gks, d.strike_price, d.contract_type⟩

/-- The per-leg loop: stops at the first failing leg. -/
def resolveLegs (m : String → Option Snapshot) :
    List OptionLeg → Except AnalysisError (List ResolvedLeg)
  | [] => .ok []
  | leg :: rest =>
      match resolveLeg m leg with
      | .error e => .error e
      | .ok rl =>
          match resolveLegs m rest with
          | .error e => .error e
          | .ok rls => .ok (rl :: rls)

/-- `net_cost += sign * mid_price * leg.quantity * 100`. -/
def netCost (rls : List ResolvedLeg) : ℚ :=
  rls.foldl (fun acc rl => acc + rl.sign * rl.mid_price * (rl.quantity : ℚ) * 100) 0

/-- `position_greeks[g] += sign * leg.quantity * snap["greeks"][g]`. -/
def positionGreeks (rls : List ResolvedLeg) : Greeks :=
  rls.foldl
    (fun g rl =>
      ⟨g.delta + rl.sign * (rl.quantity : ℚ) * rl.greeks.delta,
       g.gamma + rl.sign * (rl.quantity : ℚ) * rl.greeks.gamma,
       g.theta + rl.sign * (rl.quantity : ℚ) * rl.greeks.theta,
       g.vega + rl.sign * (rl.quantity : ℚ) * rl.greeks.vega⟩)
    ⟨0, 0, 0, 0⟩

/-- The `processed_legs` entry appended for a leg:
`cost_per_share = mid_price * sign`. -/
def toProcessedLeg (rl : ResolvedLeg) : ProcessedLeg :=
  ⟨rl.strike, rl.type, rl.mid_price * rl.sign, rl.quantity⟩

/-- Intrinsic value at expiration: the branch on `leg_info["type"]`. -/
def intrinsicValue (type : String) (strike P : ℚ) : ℚ :=
  if type = "call" then max 0 (P - strike) else max 0 (strike - P)

/-- Total strategy P/L at one expiration price: the inner accumulation
loop. -/
def totalProfitLoss (pls : List ProcessedLeg) (P : ℚ) : ℚ :=
  pls.foldl
    (fun acc li => acc + (intrinsicValue li.type li.strike P - li.cost_per_share)
      * (li.quantity : ℚ) * 100) 0

/-- The `i`-th of the 200 `np.linspace` samples:
`start + i * (stop - start) / 199`. -/
def samplePrice (u : ℚ) (i : ℕ) : ℚ :=
  u * 0.75 + (i : ℚ) * (u * 1.25 - u * 0.75) / 199

/-- `np.linspace(underlying_price * 0.75, underlying_price * 1.25, 200)`
in exact arithmetic. -/
def priceRange (u : ℚ) : List ℚ :=
  (List.range 200).map (samplePrice u)

/-- The `pl_chart_data` list. -/
def plChartData (u : ℚ) (pls : List ProcessedLeg) : List PayoffPoint :=
  (priceRange u).map (fun P => ⟨P, totalProfitLoss pls P⟩)

/-- The linear-interpolation formula of the breakeven loop. -/
def interpolateZero (p1 p2 : PayoffPoint) : ℚ :=
  p1.price_at_expiration - p1.profit_loss
    * (p2.price_at_expiration - p1.price_at_expiration)
    / (p2.profit_loss - p1.profit_loss)

/-- The breakeven loop over consecutive chart points. -/
def breakevenPoints (pts : List PayoffPoint) : List ℚ :=
  (pts.zip pts.tail).foldl
    (fun acc pq =>
      if pq.1.profit_loss * pq.2.profit_loss < 0 then
        acc ++ [pyRound2 (interpolateZero pq.1 pq.2)]
      else acc) []

/-- `underlying_ticker = leg_tickers[0].split(":")[1][:6].rstrip("0123456789")`;
`none` models the `IndexError` when there is no `":"`. -/
def underlyingTickerOf (t : String) : Option String :=
  ((t.data.splitOn ':').get? 1).map
    (fun cs => ⟨((cs.take 6).reverse.dropWhile Char.isDigit).reverse⟩)

/-- `stock_snapshot.get("session", {}).get("close") or
stock_snapshot.get("last_trade", {}).get("price")`: a falsy (zero or
missing) session close falls through to the last-trade price. -/
def resolveUnderlyingPrice (s : Snapshot) : Option ℚ :=
  match s.session_close with
  | some c => if c ≠ 0 then some c else s.last_trade_price
  | none => s.last_trade_price

/-- `max` of a nonempty python list. -/
def listMax (x : ℚ) (xs : List ℚ) : ℚ := xs.foldl max x

/-- `min` of a nonempty python list. -/
def listMin (x : ℚ) (xs : List ℚ) : ℚ := xs.foldl min x

/-- `analyze_strategy_performance` after the snapshot map `m` has been
fetched (the HTTP fetch is the external collaborator). -/
def analyzeStrategy (m : String → Option Snapshot) (legs : List OptionLeg) :
    Except AnalysisError AnalyzedStrategy :=
  match legs with
  | [] => .error ⟨"Strategy must contain at least one leg.", 400⟩
  | leg0 :: _ =>
      match underlyingTickerOf leg0.option_ticker with
      | none => .error ⟨"An unexpected error occurred during analysis: IndexError", 500⟩
      | some ut =>
          match m ut with
          | none => .error ⟨"Could not fetch snapshot for underlying stock " ++ ut, 404⟩
          | some stockSnap =>
              match resolveUnderlyingPrice stockSnap with
              | none => .error ⟨"Could not parse price from stock snapshot", 400⟩
              | some u =>
                  match resolveLegs m legs with
                  | .error e => .error e
                  | .ok rls =>
                      let chart := plChartData u (rls.map toProcessedLeg)
                      match chart.map (·.profit_loss) with
                      | [] => .error ⟨"An unexpected error occurred during analysis: ValueError", 500⟩
                      | p :: ps =>
                          .ok { max_profit := listMax p ps
                                max_loss := listMin p ps
                                breakeven_points := breakevenPoints chart
                                net_cost := netCost rls
                                position_delta := (positionGreeks rls).delta
                                position_gamma := (positionGreeks rls).gamma
                                position_theta := (positionGreeks rls).theta
                                position_vega := (positionGreeks rls).vega
                                pl_chart_data := chart }

/-! ### Volatility analytics

Mirrors `backend/app/services/volatility_calculator_service.py`
(`calculate_hv`, `calculate_iv_indicators`) and
`backend/volatility_calculator.py` (same computations). -/

/-- `np.roll(prices, 1)`: rotate one position to the right, so the
element paired with the first price is the *last* price. -/
def rollOne (l : List ℝ) : List ℝ :=
  match l.getLast? with
  | none => []
  | some x => x :: l.dropLast

/-- `np.log(np.array(prices) / np.roll(np.array(prices), 1))`. -/
noncomputable def logReturns (prices : List ℝ) : List ℝ :=
  (prices.zip (rollOne prices)).map (fun pq => Real.log (pq.1 / pq.2))

/-- `np.std(xs, ddof=1)`: the unbiased sample standard deviation. -/
noncomputable def sampleStd (xs : List ℝ) : ℝ :=
  let n : ℝ := xs.length
  let mean := xs.sum / n
  Real.sqrt ((xs.map (fun x => (x - mean) ^ 2)).sum / (n - 1))

/-- `calculate_hv`: rolling annualized volatility over the strided
windows of `log_returns`, left-padded with `None` to the input length.
The strided view takes the `len - window + 1` windows of `window`
consecutive entries of `log_returns` (whose first entry, via `np.roll`,
is the wrap-around ratio first/last). -/
noncomputable def hvSeries (prices : List ℝ) (window : ℕ) : List ℝ :=
  (List.range ((logReturns prices).length - window + 1)).map
    (fun k => sampleStd (((logReturns prices).drop k).take window) * Real.sqrt 252)

noncomputable def calculate_hv (prices : List ℝ) (window : ℕ) : List (Option ℝ) :=
  if prices.length < window then []
  else List.replicate (prices.length - (hvSeries prices window).length) none
    ++ (hvSeries prices window).map some

/-- The daily log returns `r_t = ln(p_t / p_{t-1})`, `t = 1 .. n-1`, of
a price list — the specification's return series. -/
noncomputable def dailyLogReturns (prices : List ℝ) : List ℝ :=
  (prices.zip prices.tail).map (fun pq => Real.log (pq.2 / pq.1))

/-- The window of (at most) `window` consecutive daily log returns
ending at price index `i`, as the specification describes the rolling
window: of the returns up to index `i`, the last `window`. -/
noncomputable def specReturnsWindow (prices : List ℝ) (window i : ℕ) : List ℝ :=
  ((dailyLogReturns prices).take i).drop (i - window)

/-- The result record of `calculate_iv_indicators`. -/
structure IVIndicators where
  current_iv : ℚ
  iv_rank : ℚ
  iv_percentile : ℚ
  iv_52_week_high : ℚ
  iv_52_week_low : ℚ
deriving DecidableEq

/-- `calculate_iv_indicators`: `none` is the empty dictionary returned
for an empty or all-null series. -/
def calculate_iv_indicators (iv_series : List (Option ℚ)) : Option IVIndicators :=
  if iv_series.isEmpty then none
  else
    match iv_series.filterMap id with
    | [] => none
    | c :: cs =>
        let current_iv := (c :: cs).getLast (List.cons_ne_nil c cs)
        let high_52wk := listMax c cs
        let low_52wk := listMin c cs
        let ivr : ℚ :=
          if high_52wk - low_52wk > 0 then
            ((current_iv - low_52wk) / (high_52wk - low_52wk)) * 100
          else 0
        let ivp : ℚ :=
          (((c :: cs).countP (fun x => decide (x < current_iv)) : ℚ)
            / ((c :: cs).length : ℚ)) * 100
        some ⟨current_iv, pyRound2 ivr, pyRound2 ivp, high_52wk, low_52wk⟩

/-! ### Live option-chain assembly

Mirrors `OptionChainService._fetch_and_process_live_option_chain` in
`backend/app/services/option_chain_service.py`, after the two fetches
have resolved: the underlying price and the snapshot `results` list are
the inputs. -/

/-- The `quote` sub-dictionary of a chain contract snapshot: keys may be
absent. -/
structure ChainQuote where
  bid : Option ℚ
  ask : Option ℚ
deriving DecidableEq

/-- The `details` sub-dictionary of a chain contract snapshot. -/
structure ChainDetails where
  ticker : Option String
  strike_price : Option ℚ
  contract_type : Option String
  volume : Option ℤ
  open_interest : Option ℤ
deriving DecidableEq

/-- The `greeks` sub-dictionary of a chain contract snapshot. -/
structure ChainGreeks where
  implied_volatility : Option ℚ
  delta : Option ℚ
  gamma : Option ℚ
  theta : Option ℚ
  vega : Option ℚ
deriving DecidableEq

/-- One element of the chain snapshot `results` list.  A missing
sub-dictionary is modelled by its all-`none` record (`.get(key, {})`). -/
structure ContractSnapshot where
  details : ChainDetails
  greeks : ChainGreeks
  last_trade_price : Option ℚ
  quote : ChainQuote
  in_the_money : Option Bool
deriving DecidableEq

/-- The `OptionContract` schema record. -/
structure OptionContract where
  symbol : String
  strike_price : ℚ
  contract_type : String
  bid : ℚ
  ask : ℚ
  last_price : Option ℚ
  volume : Option ℤ
  open_interest : Option ℤ
  implied_volatility : Option ℚ
  delta : Option ℚ
  gamma : Option ℚ
  theta : Option ℚ
  vega : Option ℚ
  is_itm : Bool
deriving DecidableEq

/-- The `OptionChain` schema record. -/
structure OptionChain where
  isMock : Bool
  underlying_price : ℚ
  calls : List OptionContract
  puts : List OptionContract
deriving DecidableEq

/-- The skip test: `all([details.get("ticker"),
details.get("strike_price"), details.get("contract_type"),
quote.get("bid") is not None, quote.get("ask") is not None])` —
truthiness for the detail fields (an empty string or a zero strike is
falsy), presence for bid/ask. -/
def essentialDataPresent (snap : ContractSnapshot) : Bool :=
  (match snap.details.ticker with | some t => t ≠ "" | none => false) &&
  (match snap.details.strike_price with | some k => k ≠ 0 | none => false) &&
  (match snap.details.contract_type with | some ct => ct ≠ "" | none => false) &&
  snap.quote.bid.isSome && snap.quote.ask.isSome

/-- The `OptionContract` built for a snapshot that passed the skip test
(fields read with `.get`, `is_itm` taken from the provider's
`in_the_money` key with default `False`). -/
def mkOptionContract (snap : ContractSnapshot) : OptionContract :=
  { symbol := snap.details.ticker.getD ""
    strike_price := snap.details.strike_price.getD 0
    contract_type := snap.details.contract_type.getD ""
    bid := snap.quote.bid.getD 0
    ask := snap.quote.ask.getD 0
    last_price := snap.last_trade_price
    volume := snap.details.volume
    open_interest := snap.details.open_interest
    implied_volatility := snap.greeks.implied_volatility
    delta := snap.greeks.delta
    gamma := snap.greeks.gamma
    theta := snap.greeks.theta
    vega := snap.greeks.vega
    is_itm := snap.in_the_money.getD false }

/-- One iteration of the loop over `data.get("results", [])`: skip on
missing essentials, then append to `calls` if the contract type is
`"call"`, else to `puts`. -/
def chainStep (acc : List OptionContract × List OptionContract)
    (snap : ContractSnapshot) : List OptionContract × List OptionContract :=
  if essentialDataPresent snap then
    let oc := mkOptionContract snap
    if oc.contract_type = "call" then (acc.1 ++ [oc], acc.2)
    else (acc.1, acc.2 ++ [oc])
  else acc

/-- The accumulation loop over the chain snapshot results. -/
def accumulateChain (results : List ContractSnapshot) :
    List OptionContract × List OptionContract :=
  results.foldl chainStep ([], [])

/-- `calls.sort(key=lambda x: x.strike_price)`: stable ascending sort. -/
def sortByStrike (l : List OptionContract) : List OptionContract :=
  l.mergeSort (fun a b => a.strike_price ≤ b.strike_price)

/-- The live branch after both fetches resolved. -/
def processLiveChain (underlying_price : ℚ) (results : List ContractSnapshot) :
    OptionChain :=
  let cp := accumulateChain results
  { isMock := false
    underlying_price := underlying_price
    calls := sortByStrike cp.1
    puts := sortByStrike cp.2 }

/-- The specification's in-the-money rule:
`(call ∧ strike < underlying) ∨ (put ∧ strike > underlying)`. -/
def specIsITM (c : OptionContract) (underlying_price : ℚ) : Bool :=
  (c.contract_type = "call" && decide (c.strike_price < underlying_price)) ||
  (c.contract_type = "put" && decide (c.strike_price > underlying_price))

/-! ### The batched snapshot index

Mirrors `get_option_chain` in `backend/main.py`, step 2: split the
identifier list into batches of `BATCH_SIZE = 25`, issue one request per
batch, swallow failed requests, and merge the non-error items of
successful responses into `snapshot_map`. -/

/-- One item of a snapshot response: its ticker and whether it carries
an error marker. -/
structure SnapItem where
  ticker : String
  error : Bool
deriving DecidableEq

/-- Structural worker for the batch split: the fuel bounds the number
of batches (the list length suffices). -/
def batchesOf25Aux : ℕ → List String → List (List String)
  | _, [] => []
  | 0, _ :: _ => []
  | fuel + 1, x :: xs => ((x :: xs).take 25) :: batchesOf25Aux fuel ((x :: xs).drop 25)

/-- `all_tickers_to_query[i:i+BATCH_SIZE]` for `i = 0, 25, 50, ...`. -/
def batchesOf25 (l : List String) : List (List String) :=
  batchesOf25Aux l.length l

/-- `snapshot_map[item["ticker"]] = item`, guarded by
`if not item.get("error")`. -/
def snapWrite (m : String → Option SnapItem) (item : SnapItem) :
    String → Option SnapItem :=
  if item.error then m
  else fun t => if t = item.ticker then some item else m t

/-- Process one batch response: a `none` response is a failed request
(`isinstance(res, Exception)` or a non-200 status) and is skipped;
otherwise its items are written in order. -/
def applyResponse (m : String → Option SnapItem) (res : Option (List SnapItem)) :
    String → Option SnapItem :=
  match res with
  | none => m
  | some items => items.foldl snapWrite m

/-- Merge the batch responses in order into `snapshot_map`; later writes
to the same ticker override earlier ones, as for a python dict. -/
def mergeResponses (responses : List (Option (List SnapItem))) :
    String → Option SnapItem :=
  responses.foldl applyResponse (fun _ => none)

/-- A response writes an entry for ticker `t` exactly when it is a
successful response holding a non-error item with that ticker. -/
def respWrites (res : Option (List SnapItem)) (t : String) : Prop :=
  ∃ items, res = some items ∧ ∃ item ∈ items, item.ticker = t ∧ item.error = false

/-- The snapshot index built from a provider `fetch`: one request per
batch of 25. -/
def fetchSnapshotIndex (tickers : List String)
    (fetch : List String → Option (List SnapItem)) : String → Option SnapItem :=
  mergeResponses ((batchesOf25 tickers).map fetch)

/-! ### Generic list helpers -/

/-- An accumulation loop that appends `f x` when `c x` holds is a
`filterMap`. -/
theorem foldl_append_if_eq_filterMap {α β : Type} (c : α → Prop) [DecidablePred c]
    (f : α → β) (l : List α) (acc : List β) :
    l.foldl (fun a x => if c x then a ++ [f x] else a) acc
      = acc ++ l.filterMap (fun x => if c x then some (f x) else none) := by
  induction l generalizing acc with
  | nil => simp
  | cons y ys ih =>
      by_cases hy : c y
      · rw [List.foldl_cons, if_pos hy, ih]
        simp [hy, List.filterMap_cons]
      · rw [List.foldl_cons, if_neg hy, ih]
        simp [hy, List.filterMap_cons]

/-- An accumulation loop that adds `f x` computes `a + (l.map f).sum`. -/
theorem foldl_add_eq_sum {α : Type} (f : α → ℚ) (l : List α) (a : ℚ) :
    l.foldl (fun acc x => acc + f x) a = a + (l.map f).sum := by
  induction l generalizing a with
  | nil => simp
  | cons y ys ih => simp [ih, add_assoc]

/-- A left fold with `max` stays in the list. -/
theorem foldl_max_mem (c : ℚ) (cs : List ℚ) : cs.foldl max c ∈ c :: cs := by
  induction cs generalizing c with
  | nil => simp
  | cons b bs ih =>
      rw [List.foldl_cons]
      rcases List.mem_cons.mp (ih (max c b)) with h | h
      · rcases max_choice c b with hm | hm
        · exact List.mem_cons.mpr (Or.inl (h.trans hm))
        · exact List.mem_cons.mpr (Or.inr (List.mem_cons.mpr (Or.inl (h.trans hm))))
      · exact List.mem_cons.mpr (Or.inr (List.mem_cons.mpr (Or.inr h)))

/-- A left fold with `max` bounds every element. -/
theorem le_foldl_max (c : ℚ) (cs : List ℚ) : ∀ x ∈ c :: cs, x ≤ cs.foldl max c := by
  induction cs generalizing c with
  | nil => intro x hx; simp at hx; simp [hx]
  | cons b bs ih =>
      intro x hx
      rcases List.mem_cons.mp hx with h | h
      · subst h
        exact le_trans (le_max_left x b) (ih (max x b) _ (List.mem_cons_self _ _))
      · rcases List.mem_cons.mp h with h2 | h2
        · subst h2
          exact le_trans (le_max_right c x) (ih (max c x) _ (List.mem_cons_self _ _))
        · exact ih (max c b) x (List.mem_cons.mpr (Or.inr h2))

/-- A left fold with `min` stays in the list. -/
theorem foldl_min_mem (c : ℚ) (cs : List ℚ) : cs.foldl min c ∈ c :: cs := by
  induction cs generalizing c with
  | nil => simp
  | cons b bs ih =>
      rw [List.foldl_cons]
      rcases List.mem_cons.mp (ih (min c b)) with h | h
      · rcases min_choice c b with hm | hm
        · exact List.mem_cons.mpr (Or.inl (h.trans hm))
        · exact List.mem_cons.mpr (Or.inr (List.mem_cons.mpr (Or.inl (h.trans hm))))
      · exact List.mem_cons.mpr (Or.inr (List.mem_cons.mpr (Or.inr h)))

/-- A left fold with `min` is below every element. -/
theorem foldl_min_le (c : ℚ) (cs : List ℚ) : ∀ x ∈ c :: cs, cs.foldl min c ≤ x := by
  induction cs generalizing c with
  | nil => intro x hx; simp at hx; simp [hx]
  | cons b bs ih =>
      intro x hx
      rcases List.mem_cons.mp hx with h | h
      · subst h
        exact le_trans (ih (min x b) _ (List.mem_cons_self _ _)) (min_le_left x b)
      · rcases List.mem_cons.mp h with h2 | h2
        · subst h2
          exact le_trans (ih (min c x) _ (List.mem_cons_self _ _)) (min_le_right c x)
        · exact ih (min c b) x (List.mem_cons.mpr (Or.inr h2))

theorem foldl_max_replicate (v : ℚ) (n : ℕ) :
    (List.replicate n v).foldl max v = v := by
  induction n with
  | zero => rfl
  | succ m ih => simpa [List.replicate_succ, max_self] using ih

theorem foldl_min_replicate (v : ℚ) (n : ℕ) :
    (List.replicate n v).foldl min v = v := by
  induction n with
  | zero => rfl
  | succ m ih => simpa [List.replicate_succ, min_self] using ih

theorem getLast?_cons_replicate (v : ℚ) (n : ℕ) :
    (v :: List.replicate n v).getLast? = some v := by
  induction n with
  | zero => rfl
  | succ m ih => simpa [List.replicate_succ, List.getLast?_cons_cons] using ih

/-! ### C3 — breakeven locator -/

unseal Rat.mul Rat.add Rat.sub Rat.inv Rat.ofScientific in
/-- C3: the breakeven locator appends a (2-decimal rounded,
linearly interpolated) zero-crossing exactly for each consecutive pair
of payoff points whose profit/loss product is strictly negative, in
order of occurrence; the interpolated point is the true zero of the
connecting line; and the example curve with an exact-zero sample yields
no breakevens. -/
theorem breakeven_locator_spec :
    (∀ pts : List PayoffPoint,
      breakevenPoints pts
        = (pts.zip pts.tail).filterMap
            (fun pq => if pq.1.profit_loss * pq.2.profit_loss < 0 then
              some (pyRound2 (interpolateZero pq.1 pq.2)) else none)) ∧
    (∀ p q : PayoffPoint, p.profit_loss * q.profit_loss < 0 →
      p.price_at_expiration ≠ q.price_at_expiration →
      p.profit_loss + (interpolateZero p q - p.price_at_expiration)
        * (q.profit_loss - p.profit_loss)
        / (q.price_at_expiration - p.price_at_expiration) = 0) ∧
    breakevenPoints [⟨90, -100⟩, ⟨95, -50⟩, ⟨100, 0⟩, ⟨105, 60⟩] = [] := by
  refine ⟨fun pts => ?_, fun p q hlt hne => ?_, by decide⟩
  · simpa using foldl_append_if_eq_filterMap
      (fun pq : PayoffPoint × PayoffPoint => pq.1.profit_loss * pq.2.profit_loss < 0)
      (fun pq => pyRound2 (interpolateZero pq.1 pq.2)) (pts.zip pts.tail) []
  · have hpl : q.profit_loss - p.profit_loss ≠ 0 := by
      rcases mul_neg_iff.mp hlt with ⟨h1, h2⟩ | ⟨h1, h2⟩ <;> intro h <;> nlinarith
    have hpr : q.price_at_expiration - p.price_at_expiration ≠ 0 :=
      sub_ne_zero_of_ne (Ne.symm hne)
    unfold interpolateZero
    field_simp
    ring

unseal Rat.mul Rat.add Rat.sub Rat.inv Rat.ofScientific in
/-- Witness for C3's interpolation conjunct at a concrete crossing
pair. -/
theorem breakeven_locator_spec_witness :
    ((-100 : ℚ) * 50 < 0) ∧ ((90 : ℚ) ≠ 95) ∧
    ((-100 : ℚ) + (interpolateZero ⟨90, -100⟩ ⟨95, 50⟩ - 90) * (50 - -100) / (95 - 90) = 0) :=
  ⟨by decide, by decide,
    breakeven_locator_spec.2.1 ⟨90, -100⟩ ⟨95, 50⟩ (by norm_num) (by norm_num)⟩

/-! ### C4 — IV rank / percentile -/

theorem filterMap_id_replicate_some (v : ℚ) (n : ℕ) :
    (List.replicate n (some v)).filterMap id = List.replicate n v := by
  induction n with
  | zero => rfl
  | succ k ih =>
      rw [List.replicate_succ, List.replicate_succ, List.filterMap_cons]
      simp [ih]

unseal Rat.mul Rat.add Rat.sub Rat.inv Rat.ofScientific in
/-- C4: for a series whose null-filtered form is non-empty,
`calculate_iv_indicators` returns the last filtered element as
`current_iv`, the max/min of the filtered series as high/low, the rank
formula (0 when high = low) and the strict percentile formula, both
rounded to two decimals; identical values give rank 0 and percentile 0;
an all-null (or empty) series gives the empty result. -/
theorem iv_indicators_spec (series : List (Option ℚ)) :
    (series.filterMap id = [] → calculate_iv_indicators series = none) ∧
    (series.filterMap id ≠ [] →
      ∃ r, calculate_iv_indicators series = some r ∧
        (series.filterMap id).getLast? = some r.current_iv ∧
        r.iv_52_week_high ∈ series.filterMap id ∧
        (∀ x ∈ series.filterMap id, x ≤ r.iv_52_week_high) ∧
        r.iv_52_week_low ∈ series.filterMap id ∧
        (∀ x ∈ series.filterMap id, r.iv_52_week_low ≤ x) ∧
        r.iv_rank = pyRound2 (if r.iv_52_week_high = r.iv_52_week_low then 0
          else ((r.current_iv - r.iv_52_week_low)
            / (r.iv_52_week_high - r.iv_52_week_low)) * 100) ∧
        r.iv_percentile = pyRound2
          ((((series.filterMap id).countP (fun x => decide (x < r.current_iv)) : ℚ)
            / ((series.filterMap id).length : ℚ)) * 100)) ∧
    (∀ (v : ℚ) (n : ℕ), 0 < n →
      calculate_iv_indicators (List.replicate n (some v)) = some ⟨v, 0, 0, v, v⟩) := by
  refine ⟨fun hempty => ?_, fun hne => ?_, fun v n hn => ?_⟩
  · unfold calculate_iv_indicators
    rw [hempty]
    by_cases hs : series.isEmpty = true
    · rw [if_pos hs]
    · rw [if_neg hs]
  · unfold calculate_iv_indicators
    have hs : series.isEmpty = false := by
      cases series with
      | nil => exact absurd rfl hne
      | cons a l => rfl
    simp only [hs, if_false]
    obtain ⟨c, cs, hcc⟩ := List.exists_cons_of_ne_nil hne
    rw [hcc]
    refine ⟨_, rfl, ?_, ?_, ?_, ?_, ?_, ?_, ?_⟩
    · rw [List.getLast?_eq_getLast _ (List.cons_ne_nil c cs)]
    · exact foldl_max_mem c cs
    · exact le_foldl_max c cs
    · exact foldl_min_mem c cs
    · exact foldl_min_le c cs
    · have hlowhigh : listMin c cs ≤ listMax c cs :=
        le_trans (foldl_min_le c cs c (List.mem_cons_self _ _))
          (le_foldl_max c cs c (List.mem_cons_self _ _))
      by_cases heq : listMax c cs = listMin c cs
      · have h1 : ¬ (listMax c cs - listMin c cs > 0) := by rw [heq]; simp
        rw [if_neg h1, if_pos heq]
      · have h2 : listMax c cs - listMin c cs > 0 := by
          have : listMin c cs < listMax c cs :=
            lt_of_le_of_ne hlowhigh (fun h => heq h.symm)
          linarith
        rw [if_pos h2, if_neg heq]
    · rfl
  · obtain ⟨m, rfl⟩ : ∃ m, n = m + 1 := ⟨n - 1, by omega⟩
    have hfm : (List.replicate (m + 1) (some v)).filterMap (id : Option ℚ → Option ℚ)
        = v :: List.replicate m v := by
      rw [filterMap_id_replicate_some, List.replicate_succ]
    unfold calculate_iv_indicators
    have hne2 : (List.replicate (m + 1) (some v)).isEmpty = false := by
      simp [List.replicate_succ]
    simp only [hne2, if_false, hfm]
    have hlast : (v :: List.replicate m v).getLast (List.cons_ne_nil v _) = v := by
      have := getLast?_cons_replicate v m
      rwa [List.getLast?_eq_getLast _ (List.cons_ne_nil v _), Option.some_inj] at this
    have hmax : listMax v (List.replicate m v) = v := foldl_max_replicate v m
    have hmin : listMin v (List.replicate m v) = v := foldl_min_replicate v m
    have hcount : (v :: List.replicate m v).countP (fun x => decide (x < v)) = 0 := by
      rw [List.countP_eq_zero]
      intro a ha
      rcases List.mem_cons.mp ha with h | h
      · simp [h]
      · simp [List.eq_of_mem_replicate h]
    simp only [hlast, hmax, hmin, hcount, sub_self, gt_iff_lt, lt_self_iff_false,
      if_false, Nat.cast_zero, zero_div, zero_mul]
    have h0 : pyRound2 0 = 0 := by decide
    simp [h0]

unseal Rat.mul Rat.add Rat.sub Rat.inv Rat.ofScientific in
/-- Witness for C4 at concrete inputs: an all-null series, the worked
rank example, and a flat series. -/
theorem iv_indicators_spec_witness :
    (([(none : Option ℚ)].filterMap id = []) ∧
      calculate_iv_indicators [(none : Option ℚ)] = none) ∧
    (([some (1/5 : ℚ), some (4/5), some (1/2)].filterMap id ≠ []) ∧
      ∃ r, calculate_iv_indicators [some (1/5 : ℚ), some (4/5), some (1/2)] = some r ∧
        (([some (1/5 : ℚ), some (4/5), some (1/2)].filterMap id).getLast?
          = some r.current_iv) ∧
        r.iv_52_week_high ∈ [some (1/5 : ℚ), some (4/5), some (1/2)].filterMap id ∧
        (∀ x ∈ [some (1/5 : ℚ), some (4/5), some (1/2)].filterMap id,
          x ≤ r.iv_52_week_high) ∧
        r.iv_52_week_low ∈ [some (1/5 : ℚ), some (4/5), some (1/2)].filterMap id ∧
        (∀ x ∈ [some (1/5 : ℚ), some (4/5), some (1/2)].filterMap id,
          r.iv_52_week_low ≤ x) ∧
        r.iv_rank = pyRound2 (if r.iv_52_week_high = r.iv_52_week_low then 0
          else ((r.current_iv - r.iv_52_week_low)
            / (r.iv_52_week_high - r.iv_52_week_low)) * 100) ∧
        r.iv_percentile = pyRound2
          (((([some (1/5 : ℚ), some (4/5), some (1/2)].filterMap id).countP
              (fun x => decide (x < r.current_iv)) : ℚ)
            / (([some (1/5 : ℚ), some (4/5), some (1/2)].filterMap id).length : ℚ))
            * 100)) ∧
    (0 < 3 ∧ calculate_iv_indicators (List.replicate 3 (some (1/2 : ℚ)))
      = some ⟨1/2, 0, 0, 1/2, 1/2⟩) :=
  ⟨⟨by decide, (iv_indicators_spec [(none : Option ℚ)]).1 (by decide)⟩,
   ⟨by decide, (iv_indicators_spec _).2.1 (by decide)⟩,
   ⟨by decide, (iv_indicators_spec []).2.2 (1/2) 3 (by decide)⟩⟩

/-! ### Facts about the leg loop and its aggregations -/

theorem netCost_eq_sum (rls : List ResolvedLeg) :
    netCost rls
      = (rls.map (fun rl => rl.sign * rl.mid_price * (rl.quantity : ℚ) * 100)).sum := by
  unfold netCost
  rw [foldl_add_eq_sum (fun rl : ResolvedLeg => rl.sign * rl.mid_price * (rl.quantity : ℚ) * 100)]
  simp

theorem totalProfitLoss_eq_sum (pls : List ProcessedLeg) (P : ℚ) :
    totalProfitLoss pls P
      = (pls.map (fun li => (intrinsicValue li.type li.strike P - li.cost_per_share)
          * (li.quantity : ℚ) * 100)).sum := by
  unfold totalProfitLoss
  rw [foldl_add_eq_sum (fun li : ProcessedLeg =>
    (intrinsicValue li.type li.strike P - li.cost_per_share) * (li.quantity : ℚ) * 100)]
  simp

theorem positionGreeks_foldl (rls : List ResolvedLeg) (g : Greeks) :
    rls.foldl
      (fun g rl =>
        ⟨g.delta + rl.sign * (rl.quantity : ℚ) * rl.greeks.delta,
         g.gamma + rl.sign * (rl.quantity : ℚ) * rl.greeks.gamma,
         g.theta + rl.sign * (rl.quantity : ℚ) * rl.greeks.theta,
         g.vega + rl.sign * (rl.quantity : ℚ) * rl.greeks.vega⟩) g
    = ⟨g.delta + (rls.map (fun rl => rl.sign * (rl.quantity : ℚ) * rl.greeks.delta)).sum,
       g.gamma + (rls.map (fun rl => rl.sign * (rl.quantity : ℚ) * rl.greeks.gamma)).sum,
       g.theta + (rls.map (fun rl => rl.sign * (rl.quantity : ℚ) * rl.greeks.theta)).sum,
       g.vega + (rls.map (fun rl => rl.sign * (rl.quantity : ℚ) * rl.greeks.vega)).sum⟩ := by
  induction rls generalizing g with
  | nil => cases g; simp
  | cons rl rest ih =>
      rw [List.foldl_cons, ih]
      simp [add_assoc]

theorem positionGreeks_eq_sum (rls : List ResolvedLeg) :
    positionGreeks rls
      = ⟨(rls.map (fun rl => rl.sign * (rl.quantity : ℚ) * rl.greeks.delta)).sum,
         (rls.map (fun rl => rl.sign * (rl.quantity : ℚ) * rl.greeks.gamma)).sum,
         (rls.map (fun rl => rl.sign * (rl.quantity : ℚ) * rl.greeks.theta)).sum,
         (rls.map (fun rl => rl.sign * (rl.quantity : ℚ) * rl.greeks.vega)).sum⟩ := by
  unfold positionGreeks
  rw [positionGreeks_foldl]
  simp

/-- A successful leg loop resolves every leg by `resolveLeg`. -/
theorem resolveLegs_ok_eq_map (m : String → Option Snapshot) :
    ∀ (legs : List OptionLeg) (rls : List ResolvedLeg),
      resolveLegs m legs = .ok rls →
      rls = legs.map (fun l => ((resolveLeg m l).toOption).getD default) := by
  intro legs
  induction legs with
  | nil => intro rls h; simp [resolveLegs] at h; simp [h.symm]
  | cons leg rest ih =>
      intro rls h
      cases hl : resolveLeg m leg with
      | error e => simp [resolveLegs, hl] at h
      | ok rl =>
          cases hrest : resolveLegs m rest with
          | error e => simp [resolveLegs, hl, hrest] at h
          | ok rls0 =>
              simp only [resolveLegs, hl, hrest] at h
              cases h
              simp [hl, ih rls0 hrest, Except.toOption]

/-- A successful leg loop means every leg resolved. -/
theorem resolveLegs_ok_forall (m : String → Option Snapshot) :
    ∀ (legs : List OptionLeg) (rls : List ResolvedLeg),
      resolveLegs m legs = .ok rls →
      ∀ l ∈ legs, ∃ rl, resolveLeg m l = .ok rl := by
  intro legs
  induction legs with
  | nil => intro rls _ l hl; simp at hl
  | cons leg rest ih =>
      intro rls h l hl
      cases hlg : resolveLeg m leg with
      | error e => simp [resolveLegs, hlg] at h
      | ok rl =>
          cases hrest : resolveLegs m rest with
          | error e => simp [resolveLegs, hlg, hrest] at h
          | ok rls0 =>
              rcases List.mem_cons.mp hl with h1 | h1
              · exact ⟨rl, h1 ▸ hlg⟩
              · exact ih rls0 hrest l h1

/-- When every stage of the analysis succeeds, the result record is the
one assembled from the resolved legs and the resolved underlying
price. -/
theorem analyzeStrategy_ok_shape (m : String → Option Snapshot) (leg0 : OptionLeg)
    (rest : List OptionLeg) (ut : String) (ss : Snapshot) (u : ℚ)
    (rls : List ResolvedLeg)
    (h2 : underlyingTickerOf leg0.option_ticker = some ut)
    (h3 : m ut = some ss) (h4 : resolveUnderlyingPrice ss = some u)
    (h5 : resolveLegs m (leg0 :: rest) = .ok rls) :
    ∃ r, analyzeStrategy m (leg0 :: rest) = .ok r ∧
      r.net_cost = netCost rls ∧
      r.position_delta = (positionGreeks rls).delta ∧
      r.position_gamma = (positionGreeks rls).gamma ∧
      r.position_theta = (positionGreeks rls).theta ∧
      r.position_vega = (positionGreeks rls).vega ∧
      r.pl_chart_data = plChartData u (rls.map toProcessedLeg) ∧
      r.breakeven_points = breakevenPoints (plChartData u (rls.map toProcessedLeg)) := by
  have hplen : (plChartData u (rls.map toProcessedLeg)).map (·.profit_loss) ≠ [] := by
    intro h
    have := congrArg List.length h
    simp [plChartData, priceRange] at this
  obtain ⟨p, ps, hpp⟩ := List.exists_cons_of_ne_nil hplen
  refine ⟨⟨listMax p ps, listMin p ps,
      breakevenPoints (plChartData u (rls.map toProcessedLeg)),
      netCost rls, (positionGreeks rls).delta, (positionGreeks rls).gamma,
      (positionGreeks rls).theta, (positionGreeks rls).vega,
      plChartData u (rls.map toProcessedLeg)⟩, ?_, rfl, rfl, rfl, rfl, rfl, rfl, rfl⟩
  simp only [analyzeStrategy, h2, h3, h4, h5, hpp]

/-! ### C5 — Greeks aggregation -/

unseal Rat.mul Rat.add Rat.sub Rat.inv Rat.ofScientific in
/-- C5: position-Greeks aggregation is a pure reduction of
`sign × quantity × leg greek`: in exact arithmetic, permuting the leg
order leaves all four position Greeks unchanged, and a BUY/SELL pair of
the identical contract with identical quantity aggregates to zero in all
four Greeks. -/
theorem greeks_aggregation_spec :
    (∀ (m : String → Option Snapshot) (legs legs' : List OptionLeg)
        (rls rls' : List ResolvedLeg),
      legs.Perm legs' →
      resolveLegs m legs = .ok rls → resolveLegs m legs' = .ok rls' →
      positionGreeks rls = positionGreeks rls') ∧
    (∀ (m : String → Option Snapshot) (tk : String) (q : ℤ)
        (rls : List ResolvedLeg),
      resolveLegs m [⟨tk, "BUY", q⟩, ⟨tk, "SELL", q⟩] = .ok rls →
      positionGreeks rls = ⟨0, 0, 0, 0⟩) := by
  constructor
  · intro m legs legs' rls rls' hperm h1 h2
    rw [resolveLegs_ok_eq_map m legs rls h1, resolveLegs_ok_eq_map m legs' rls' h2,
      positionGreeks_eq_sum, positionGreeks_eq_sum]
    have hp := hperm.map (fun l => ((resolveLeg m l).toOption).getD default)
    congr 1 <;> exact (hp.map _).sum_eq
  · intro m tk q rls h
    cases hA : resolveLeg m ⟨tk, "BUY", q⟩ with
    | error e => simp [resolveLegs, hA] at h
    | ok rlb =>
        cases hB : resolveLeg m ⟨tk, "SELL", q⟩ with
        | error e => simp [resolveLegs, hA, hB] at h
        | ok rlsl =>
            simp only [resolveLegs, hA, hB, Except.ok.injEq] at h
            subst h
            unfold resolveLeg at hA hB
            cases hm : m tk with
            | none => simp [hm] at hA
            | some snap =>
                simp only [hm] at hA hB
                cases herr : snap.error with
                | true => simp [herr] at hA
                | false =>
                    simp only [herr, Bool.false_eq_true, if_false] at hA hB
                    cases hg : snap.greeks with
                    | none => simp [hg] at hA
                    | some gks =>
                        simp only [hg] at hA hB
                        cases hq : snap.last_quote with
                        | none => simp [hq] at hA
                        | some qt =>
                            simp only [hq] at hA hB
                            cases hd : snap.details with
                            | none => simp [hd] at hA
                            | some dt =>
                                simp only [hd, Except.ok.injEq] at hA hB
                                have hbuy : legSign "BUY" = 1 := by decide
                                have hsell : legSign "SELL" = -1 := by decide
                                rw [← hA, ← hB]
                                simp only [positionGreeks, List.foldl_cons,
                                  List.foldl_nil, hbuy, hsell]
                                congr 1 <;> ring

unseal Rat.mul Rat.add Rat.sub Rat.inv Rat.ofScientific in
/-- Witness for C5: a concrete BUY/SELL pair, its permutation, and the
zero aggregate. -/
theorem greeks_aggregation_spec_witness :
    ([(⟨"O:AB1", "BUY", 1⟩ : OptionLeg), ⟨"O:AB1", "SELL", 1⟩].Perm
      [⟨"O:AB1", "SELL", 1⟩, ⟨"O:AB1", "BUY", 1⟩]) ∧
    (resolveLegs
        (fun t => if t = "O:AB1" then
          some ⟨false, some ⟨1/2, 1/10, -1/10, 1/5⟩, some ⟨10, 102/10⟩,
                some ⟨100, "call"⟩, none, none⟩ else none)
        [⟨"O:AB1", "BUY", 1⟩, ⟨"O:AB1", "SELL", 1⟩]
      = .ok [⟨1, 101/10, 1, ⟨1/2, 1/10, -1/10, 1/5⟩, 100, "call"⟩,
             ⟨-1, 101/10, 1, ⟨1/2, 1/10, -1/10, 1/5⟩, 100, "call"⟩]) ∧
    (resolveLegs
        (fun t => if t = "O:AB1" then
          some ⟨false, some ⟨1/2, 1/10, -1/10, 1/5⟩, some ⟨10, 102/10⟩,
                some ⟨100, "call"⟩, none, none⟩ else none)
        [⟨"O:AB1", "SELL", 1⟩, ⟨"O:AB1", "BUY", 1⟩]
      = .ok [⟨-1, 101/10, 1, ⟨1/2, 1/10, -1/10, 1/5⟩, 100, "call"⟩,
             ⟨1, 101/10, 1, ⟨1/2, 1/10, -1/10, 1/5⟩, 100, "call"⟩]) ∧
    positionGreeks [⟨1, 101/10, 1, ⟨1/2, 1/10, -1/10, 1/5⟩, 100, "call"⟩,
        ⟨-1, 101/10, 1, ⟨1/2, 1/10, -1/10, 1/5⟩, 100, "call"⟩]
      = positionGreeks [⟨-1, 101/10, 1, ⟨1/2, 1/10, -1/10, 1/5⟩, 100, "call"⟩,
        ⟨1, 101/10, 1, ⟨1/2, 1/10, -1/10, 1/5⟩, 100, "call"⟩] ∧
    positionGreeks [⟨1, 101/10, 1, ⟨1/2, 1/10, -1/10, 1/5⟩, 100, "call"⟩,
        ⟨-1, 101/10, 1, ⟨1/2, 1/10, -1/10, 1/5⟩, 100, "call"⟩] = ⟨0, 0, 0, 0⟩ :=
  ⟨List.Perm.swap _ _ _, by decide, by decide,
    greeks_aggregation_spec.1
      (fun t => if t = "O:AB1" then
        some ⟨false, some ⟨1/2, 1/10, -1/10, 1/5⟩, some ⟨10, 102/10⟩,
              some ⟨100, "call"⟩, none, none⟩ else none)
      [⟨"O:AB1", "BUY", 1⟩, ⟨"O:AB1", "SELL", 1⟩]
      [⟨"O:AB1", "SELL", 1⟩, ⟨"O:AB1", "BUY", 1⟩]
      [⟨1, 101/10, 1, ⟨1/2, 1/10, -1/10, 1/5⟩, 100, "call"⟩,
       ⟨-1, 101/10, 1, ⟨1/2, 1/10, -1/10, 1/5⟩, 100, "call"⟩]
      [⟨-1, 101/10, 1, ⟨1/2, 1/10, -1/10, 1/5⟩, 100, "call"⟩,
       ⟨1, 101/10, 1, ⟨1/2, 1/10, -1/10, 1/5⟩, 100, "call"⟩]
      (List.Perm.swap _ _ _) (by decide) (by decide),
    greeks_aggregation_spec.2
      (fun t => if t = "O:AB1" then
        some ⟨false, some ⟨1/2, 1/10, -1/10, 1/5⟩, some ⟨10, 102/10⟩,
              some ⟨100, "call"⟩, none, none⟩ else none)
      "O:AB1" 1
      [⟨1, 101/10, 1, ⟨1/2, 1/10, -1/10, 1/5⟩, 100, "call"⟩,
       ⟨-1, 101/10, 1, ⟨1/2, 1/10, -1/10, 1/5⟩, 100, "call"⟩]
      (by decide)⟩

/-! ### C6 — net cost -/

unseal Rat.mul Rat.add Rat.sub Rat.inv Rat.ofScientific in
/-- C6: `net_cost` is the sum over legs of
`signed_cost_per_share × quantity × 100` with
`signed_cost_per_share = mid × sign`, and the single-BUY-leg strategy
with quantity 1, bid 10.0 and ask 10.2 has `net_cost` exactly 1010. -/
theorem net_cost_spec :
    (∀ rls : List ResolvedLeg,
      netCost rls = (rls.map (fun rl =>
        (toProcessedLeg rl).cost_per_share * (rl.quantity : ℚ) * 100)).sum) ∧
    (∃ r, analyzeStrategy
        (fun t => if t = "O:AB1" then
            some ⟨false, some ⟨1/2, 1/10, -1/10, 1/5⟩, some ⟨10, 102/10⟩,
                  some ⟨100, "call"⟩, none, none⟩
          else if t = "AB" then some ⟨false, none, none, none, some 100, none⟩
          else none)
        [⟨"O:AB1", "BUY", 1⟩] = .ok r ∧ r.net_cost = 1010) := by
  constructor
  · intro rls
    have hfg : (fun rl : ResolvedLeg => rl.sign * rl.mid_price * (rl.quantity : ℚ) * 100)
        = (fun rl => (toProcessedLeg rl).cost_per_share * (rl.quantity : ℚ) * 100) := by
      funext rl
      simp only [toProcessedLeg]
      ring
    rw [netCost_eq_sum, hfg]
  · obtain ⟨r, hok, hnc, -⟩ :=
      analyzeStrategy_ok_shape
        (fun t => if t = "O:AB1" then
            some ⟨false, some ⟨1/2, 1/10, -1/10, 1/5⟩, some ⟨10, 102/10⟩,
                  some ⟨100, "call"⟩, none, none⟩
          else if t = "AB" then some ⟨false, none, none, none, some 100, none⟩
          else none)
        ⟨"O:AB1", "BUY", 1⟩ [] "AB" ⟨false, none, none, none, some 100, none⟩ 100
        [⟨1, 101/10, 1, ⟨1/2, 1/10, -1/10, 1/5⟩, 100, "call"⟩]
        (by decide) (by decide) (by decide) (by decide)
    exact ⟨r, hok, by rw [hnc]; decide⟩

/-! ### C1 — payoff curve -/

theorem payoff_curve_spec (u : ℚ) (pls : List ProcessedLeg)
    (hu : 0 < u) (hne : pls ≠ []) :
    (plChartData u pls).length = 200 ∧
    (∀ i, i < 200 → (plChartData u pls).get? i
      = some ⟨samplePrice u i,
          (pls.map (fun l =>
            ((if l.type = "call" then max 0 (samplePrice u i - l.strike)
              else max 0 (l.strike - samplePrice u i)) - l.cost_per_share)
            * (l.quantity : ℚ) * 100)).sum⟩) ∧
    samplePrice u 0 = u * 0.75 ∧
    samplePrice u 199 = u * 1.25 ∧
    (∀ i : ℕ, samplePrice u (i + 1) - samplePrice u i
      = (u * 1.25 - u * 0.75) / 199) ∧
    (∀ i j : ℕ, i < j → j < 200 → samplePrice u i < samplePrice u j) := by
  refine ⟨?_, fun i hi => ?_, ?_, ?_, fun i => ?_, fun i j hij _ => ?_⟩
  · simp [plChartData, priceRange]
  · simp only [plChartData, priceRange, List.map_map, List.get?_map,
      List.get?_range hi, Option.map_some, Function.comp]
    refine congrArg some ?_
    refine congrArg (PayoffPoint.mk (samplePrice u i)) ?_
    rw [totalProfitLoss_eq_sum]
    simp [intrinsicValue]
  · simp [samplePrice]
  · rw [samplePrice]
    push_cast
    field_simp
  · rw [samplePrice, samplePrice]
    push_cast
    field_simp
    ring
  · rw [samplePrice, samplePrice]
    have hij0 : (i : ℚ) < (j : ℚ) := by exact_mod_cast hij
    have hX : (0 : ℚ) < (u * 1.25 - u * 0.75) / 199 := by
      have : (0 : ℚ) < u * 1.25 - u * 0.75 := by nlinarith
      positivity
    have := mul_lt_mul_of_pos_right hij0 hX
    have heq1 : (i : ℚ) * ((u * 1.25 - u * 0.75) / 199)
        = (i : ℚ) * (u * 1.25 - u * 0.75) / 199 := by ring
    have heq2 : (j : ℚ) * ((u * 1.25 - u * 0.75) / 199)
        = (j : ℚ) * (u * 1.25 - u * 0.75) / 199 := by ring
    rw [heq1, heq2] at this
    linarith

unseal Rat.mul Rat.add Rat.sub Rat.inv Rat.ofScientific in
/-- Witness for C1 at underlying price 100 and one processed call
leg. -/
theorem payoff_curve_spec_witness :
    (0 < (100 : ℚ)) ∧ ([(⟨100, "call", 5, 1⟩ : ProcessedLeg)] ≠ []) ∧
    (plChartData 100 [⟨100, "call", 5, 1⟩]).length = 200 :=
  ⟨by norm_num, by decide,
    (payoff_curve_spec 100 [⟨100, "call", 5, 1⟩] (by norm_num) (by decide)).1⟩

/-! ### C10 — the action string is never validated -/

/-- Changing a leg's action only changes the sign of the resolved
leg. -/
theorem resolveLeg_setAction (m : String → Option Snapshot) (l : OptionLeg)
    (a : String) :
    resolveLeg m ⟨l.option_ticker, a, l.quantity⟩
      = (resolveLeg m l).map
          (fun rl => ⟨legSign a, rl.mid_price, rl.quantity, rl.greeks,
            rl.strike, rl.type⟩) := by
  cases hm : m l.option_ticker with
  | none => simp [resolveLeg, hm, Except.map]
  | some snap =>
      cases herr : snap.error <;>
      cases hg : snap.greeks <;>
      cases hq : snap.last_quote <;>
      cases hd : snap.details <;>
      simp [resolveLeg, hm, herr, hg, hq, hd, Except.map]

/-- Changing the actions of the legs does not change whether the leg
loop succeeds. -/
theorem resolveLegs_setAction_isOk (m : String → Option Snapshot)
    (legs : List OptionLeg) (f : OptionLeg → String) :
    (resolveLegs m (legs.map (fun l =>
        (⟨l.option_ticker, f l, l.quantity⟩ : OptionLeg)))).isOk
      = (resolveLegs m legs).isOk := by
  induction legs with
  | nil => rfl
  | cons leg rest ih =>
      rw [List.map_cons]
      cases hl : resolveLeg m leg with
      | error e =>
          have hl2 : resolveLeg m ⟨leg.option_ticker, f leg, leg.quantity⟩
              = .error e := by rw [resolveLeg_setAction, hl]; rfl
          simp [resolveLegs, hl, hl2, Except.isOk, Except.toBool]
      | ok rl =>
          have hl2 : resolveLeg m ⟨leg.option_ticker, f leg, leg.quantity⟩
              = .ok ⟨legSign (f leg), rl.mid_price, rl.quantity, rl.greeks,
                  rl.strike, rl.type⟩ := by rw [resolveLeg_setAction, hl]; rfl
          cases hr : resolveLegs m rest with
          | error e =>
              cases hr2 : resolveLegs m (rest.map (fun l =>
                  (⟨l.option_ticker, f l, l.quantity⟩ : OptionLeg))) with
              | error e2 => simp [resolveLegs, hl, hl2, hr, hr2, Except.isOk, Except.toBool]
              | ok rls2 => rw [hr, hr2] at ih; simp [Except.isOk, Except.toBool] at ih
          | ok rls =>
              cases hr2 : resolveLegs m (rest.map (fun l =>
                  (⟨l.option_ticker, f l, l.quantity⟩ : OptionLeg))) with
              | error e2 => rw [hr, hr2] at ih; simp [Except.isOk, Except.toBool] at ih
              | ok rls2 => simp [resolveLegs, hl, hl2, hr, hr2, Except.isOk, Except.toBool]

/-- C10: the leg action is never validated — the sign is `+1` exactly
when the uppercased action is `"BUY"` and `-1` for every other string,
and replacing the actions of a strategy's legs by arbitrary strings
never changes whether the analysis succeeds. -/
theorem action_never_validated_spec :
    (∀ a : String, (legSign a = 1 ↔ upperString a = "BUY") ∧
      (legSign a = -1 ↔ upperString a ≠ "BUY")) ∧
    (∀ (m : String → Option Snapshot) (legs : List OptionLeg)
        (f : OptionLeg → String),
      (analyzeStrategy m (legs.map (fun l =>
          (⟨l.option_ticker, f l, l.quantity⟩ : OptionLeg)))).isOk
        = (analyzeStrategy m legs).isOk) := by
  constructor
  · intro a
    by_cases h : upperString a = "BUY"
    · constructor
      · simp [legSign, h]
      · simp only [legSign, if_pos h]
        constructor
        · intro h1; exact absurd h1 (by norm_num)
        · intro h1; exact absurd h h1
    · constructor
      · simp only [legSign, if_neg h]
        constructor
        · intro h1; exact absurd h1 (by norm_num)
        · intro h1; exact absurd h1 h
      · simp [legSign, h]
  · intro m legs f
    cases legs with
    | nil => rfl
    | cons leg0 rest =>
        rw [List.map_cons]
        cases hut : underlyingTickerOf leg0.option_ticker with
        | none => simp [analyzeStrategy, hut, Except.isOk, Except.toBool]
        | some ut =>
            cases hmut : m ut with
            | none => simp [analyzeStrategy, hut, hmut, Except.isOk, Except.toBool]
            | some ss =>
                cases hup : resolveUnderlyingPrice ss with
                | none => simp [analyzeStrategy, hut, hmut, hup, Except.isOk, Except.toBool]
                | some u =>
                    have hiso := resolveLegs_setAction_isOk m (leg0 :: rest) f
                    rw [List.map_cons] at hiso
                    cases hr : resolveLegs m (leg0 :: rest) with
                    | error e =>
                        cases hr2 : resolveLegs m
                            ((⟨leg0.option_ticker, f leg0, leg0.quantity⟩ : OptionLeg)
                              :: rest.map (fun l =>
                                (⟨l.option_ticker, f l, l.quantity⟩ : OptionLeg))) with
                        | error e2 =>
                            simp [analyzeStrategy, hut, hmut, hup, hr, hr2, Except.isOk, Except.toBool]
                        | ok rls2 => rw [hr, hr2] at hiso; simp [Except.isOk, Except.toBool] at hiso
                    | ok rls =>
                        cases hr2 : resolveLegs m
                            ((⟨leg0.option_ticker, f leg0, leg0.quantity⟩ : OptionLeg)
                              :: rest.map (fun l =>
                                (⟨l.option_ticker, f l, l.quantity⟩ : OptionLeg))) with
                        | error e2 => rw [hr, hr2] at hiso; simp [Except.isOk, Except.toBool] at hiso
                        | ok rls2 =>
                            obtain ⟨r1, hok1, -⟩ :=
                              analyzeStrategy_ok_shape m leg0 rest ut ss u rls
                                hut hmut hup hr
                            obtain ⟨r2, hok2, -⟩ :=
                              analyzeStrategy_ok_shape m
                                ⟨leg0.option_ticker, f leg0, leg0.quantity⟩
                                (rest.map (fun l =>
                                  (⟨l.option_ticker, f l, l.quantity⟩ : OptionLeg)))
                                ut ss u rls2 hut hmut hup hr2
                            rw [hok1, hok2]
                            rfl

/-! ### C9 — batched snapshot index -/

theorem batchesOf25Aux_join :
    ∀ (fuel : ℕ) (l : List String), l.length ≤ fuel →
      (batchesOf25Aux fuel l).flatten = l := by
  intro fuel
  induction fuel with
  | zero =>
      intro l h
      cases l with
      | nil => rfl
      | cons x xs => simp at h
  | succ n ih =>
      intro l h
      cases l with
      | nil => rfl
      | cons x xs =>
          simp only [batchesOf25Aux, List.flatten_cons]
          rw [ih ((x :: xs).drop 25) (by simp only [List.length_drop, List.length_cons]; simp at h; omega)]
          exact List.take_append_drop 25 (x :: xs)

theorem batchesOf25_join (l : List String) : (batchesOf25 l).flatten = l :=
  batchesOf25Aux_join l.length l le_rfl

theorem batchesOf25Aux_mem :
    ∀ (fuel : ℕ) (l : List String), l.length ≤ fuel →
      ∀ b ∈ batchesOf25Aux fuel l, b.length ≤ 25 ∧ b ≠ [] := by
  intro fuel
  induction fuel with
  | zero =>
      intro l h b hb
      cases l with
      | nil => simp [batchesOf25Aux] at hb
      | cons x xs => simp at h
  | succ n ih =>
      intro l h b hb
      cases l with
      | nil => simp [batchesOf25Aux] at hb
      | cons x xs =>
          simp only [batchesOf25Aux, List.mem_cons] at hb
          rcases hb with rfl | hb
          · constructor
            · simpa using List.length_take_le 25 (x :: xs)
            · simp
          · exact ih ((x :: xs).drop 25)
              (by simp only [List.length_drop, List.length_cons]; simp at h; omega) b hb

theorem batchesOf25_mem (l : List String) :
    ∀ b ∈ batchesOf25 l, b.length ≤ 25 ∧ b ≠ [] :=
  batchesOf25Aux_mem l.length l le_rfl

theorem snapWrite_other (m : String → Option SnapItem) (item : SnapItem)
    (t : String) (h : item.error = true ∨ item.ticker ≠ t) :
    snapWrite m item t = m t := by
  rcases h with h | h
  · simp [snapWrite, h]
  · by_cases he : item.error
    · simp [snapWrite, he]
    · simp only [snapWrite, he, Bool.false_eq_true, if_false]
      rw [if_neg (fun hc => h hc.symm)]

theorem itemsFold_congr (t : String) :
    ∀ (items : List SnapItem) (m m' : String → Option SnapItem),
      m t = m' t → (items.foldl snapWrite m) t = (items.foldl snapWrite m') t := by
  intro items
  induction items with
  | nil => intro m m' h; exact h
  | cons it rest ih =>
      intro m m' h
      rw [List.foldl_cons, List.foldl_cons]
      refine ih _ _ ?_
      by_cases he : it.error
      · simp [snapWrite, he, h]
      · simp only [snapWrite, he, Bool.false_eq_true, if_false]
        by_cases ht : t = it.ticker <;> simp [ht, h]

theorem itemsFold_cases (t : String) :
    ∀ (items : List SnapItem) (m : String → Option SnapItem),
      (items.foldl snapWrite m) t = m t ∨
      ∃ it, (items.foldl snapWrite m) t = some it ∧ it.ticker = t ∧
        it.error = false ∧ it ∈ items := by
  intro items
  induction items with
  | nil => intro m; exact Or.inl rfl
  | cons it rest ih =>
      intro m
      rw [List.foldl_cons]
      rcases ih (snapWrite m it) with h | ⟨it2, heq, hts, hes, hmem⟩
      · by_cases he : it.error
        · left; rw [h, snapWrite_other m it t (Or.inl he)]
        · by_cases ht : t = it.ticker
          · right
            refine ⟨it, ?_, ht.symm, Bool.not_eq_true _ ▸ he, List.mem_cons_self _ _⟩
            rw [h]
            simp [snapWrite, he, ht]
          · left
            rw [h, snapWrite_other m it t (Or.inr (fun hc => ht hc.symm))]
      · exact Or.inr ⟨it2, heq, hts, hes, List.mem_cons.mpr (Or.inr hmem)⟩

theorem itemsFold_isSome_mono (t : String) :
    ∀ (items : List SnapItem) (m : String → Option SnapItem),
      (m t).isSome → ((items.foldl snapWrite m) t).isSome := by
  intro items
  induction items with
  | nil => intro m h; exact h
  | cons it rest ih =>
      intro m h
      rw [List.foldl_cons]
      refine ih _ ?_
      by_cases he : it.error
      · rwa [snapWrite_other m it t (Or.inl he)]
      · by_cases ht : t = it.ticker
        · simp [snapWrite, he, ht]
        · rwa [snapWrite_other m it t (Or.inr (fun hc => ht hc.symm))]

theorem itemsFold_isSome_of_mem (t : String) :
    ∀ (items : List SnapItem) (m : String → Option SnapItem) (it : SnapItem),
      it ∈ items → it.ticker = t → it.error = false →
      ((items.foldl snapWrite m) t).isSome := by
  intro items
  induction items with
  | nil => intro m it hmem; simp at hmem
  | cons it0 rest ih =>
      intro m it hmem hts hes
      rw [List.foldl_cons]
      rcases List.mem_cons.mp hmem with rfl | hmem
      · refine itemsFold_isSome_mono t rest _ ?_
        have he0 : ¬ it.error = true := by simp [hes]
        simp [snapWrite, he0, hts.symm]
      · exact ih _ it hmem hts hes

theorem applyResponse_frame (m : String → Option SnapItem)
    (res : Option (List SnapItem)) (t : String) (h : ¬ respWrites res t) :
    applyResponse m res t = m t := by
  cases res with
  | none => rfl
  | some items =>
      rcases itemsFold_cases t items m with hc | ⟨it, heq, hts, hes, hmem⟩
      · exact hc
      · exact absurd ⟨items, rfl, it, hmem, hts, hes⟩ h

theorem applyResponse_cases (m : String → Option SnapItem)
    (res : Option (List SnapItem)) (t : String) :
    applyResponse m res t = m t ∨
    ∃ it, applyResponse m res t = some it ∧ it.ticker = t ∧ it.error = false ∧
      ∃ items, res = some items ∧ it ∈ items := by
  cases res with
  | none => exact Or.inl rfl
  | some items =>
      rcases itemsFold_cases t items m with hc | ⟨it, heq, hts, hes, hmem⟩
      · exact Or.inl hc
      · exact Or.inr ⟨it, heq, hts, hes, items, rfl, hmem⟩

theorem applyResponse_congr (res : Option (List SnapItem)) (t : String)
    (m m' : String → Option SnapItem) (h : m t = m' t) :
    applyResponse m res t = applyResponse m' res t := by
  cases res with
  | none => exact h
  | some items => exact itemsFold_congr t items m m' h

theorem mergeFold_some (t : String) (item : SnapItem) :
    ∀ (rs : List (Option (List SnapItem))) (m : String → Option SnapItem),
      (rs.foldl applyResponse m) t = some item →
      m t = some item ∨
      (item.ticker = t ∧ item.error = false ∧
        ∃ r ∈ rs, ∃ items, r = some items ∧ item ∈ items) := by
  intro rs
  induction rs with
  | nil => intro m h; exact Or.inl h
  | cons r rest ih =>
      intro m h
      rw [List.foldl_cons] at h
      rcases ih (applyResponse m r) h with h1 | ⟨hts, hes, r2, hr2, items, hi, hmem⟩
      · rcases applyResponse_cases m r t with h2 | ⟨it, heq, hts, hes, items, hi, hmem⟩
        · exact Or.inl (h2 ▸ h1)
        · rw [heq] at h1
          cases h1
          exact Or.inr ⟨hts, hes, r, List.mem_cons_self _ _, items, hi, hmem⟩
      · exact Or.inr ⟨hts, hes, r2, List.mem_cons.mpr (Or.inr hr2), items, hi, hmem⟩

theorem mergeFold_isSome (t : String) :
    ∀ (rs : List (Option (List SnapItem))) (m : String → Option SnapItem),
      ((m t).isSome ∨ ∃ r ∈ rs, respWrites r t) →
      ((rs.foldl applyResponse m) t).isSome := by
  intro rs
  induction rs with
  | nil => intro m h; rcases h with h | ⟨r, hr, -⟩; exact h; simp at hr
  | cons r rest ih =>
      intro m h
      rw [List.foldl_cons]
      rcases h with h | ⟨r2, hr2, hw⟩
      · refine ih _ (Or.inl ?_)
        rcases applyResponse_cases m r t with h2 | ⟨it, heq, -⟩
        · rwa [h2]
        · rw [heq]; rfl
      · rcases List.mem_cons.mp hr2 with rfl | hr3
        · refine ih _ (Or.inl ?_)
          obtain ⟨items, rfl, it, hmem, hts, hes⟩ := hw
          exact itemsFold_isSome_of_mem t items m it hmem hts hes
        · exact ih _ (Or.inr ⟨r2, hr3, hw⟩)

theorem mergeFold_agree (t : String) :
    ∀ (rs rs' : List (Option (List SnapItem))) (m m' : String → Option SnapItem),
      List.Forall₂ (fun r r' => r = r' ∨ (r' = none ∧ ¬ respWrites r t)) rs rs' →
      m t = m' t →
      (rs.foldl applyResponse m) t = (rs'.foldl applyResponse m') t := by
  intro rs
  induction rs with
  | nil =>
      intro rs' m m' hf hm
      cases hf
      exact hm
  | cons r rest ih =>
      intro rs' m m' hf hm
      cases hf with
      | cons hr hrest =>
          rw [List.foldl_cons, List.foldl_cons]
          refine ih _ _ _ hrest ?_
          rcases hr with rfl | ⟨rfl, hnw⟩
          · exact applyResponse_congr r t m m' hm
          · rw [applyResponse_frame m r t hnw]
            exact hm

unseal Rat.mul Rat.add Rat.sub Rat.inv Rat.ofScientific in
/-- C9: the identifier list is split into consecutive batches of at most
25; one request is issued per batch; the merged index contains exactly
the non-error items of the successful batch responses; and degrading one
batch's response to a failure only affects identifiers written by that
batch's response — the build itself never fails. -/
theorem snapshot_batching_spec :
    (∀ tickers : List String,
      (batchesOf25 tickers).flatten = tickers ∧
      ∀ b ∈ batchesOf25 tickers, b.length ≤ 25 ∧ b ≠ []) ∧
    (∀ (tickers : List String) (fetch : List String → Option (List SnapItem)),
      fetchSnapshotIndex tickers fetch
        = mergeResponses ((batchesOf25 tickers).map fetch)) ∧
    (∀ (tickers : List String) (fetch : List String → Option (List SnapItem))
        (t : String) (item : SnapItem),
      fetchSnapshotIndex tickers fetch t = some item →
      item.ticker = t ∧ item.error = false ∧
        ∃ b ∈ batchesOf25 tickers, ∃ items, fetch b = some items ∧ item ∈ items) ∧
    (∀ (tickers : List String) (fetch : List String → Option (List SnapItem))
        (t : String),
      (∃ b ∈ batchesOf25 tickers, respWrites (fetch b) t) →
      (fetchSnapshotIndex tickers fetch t).isSome) ∧
    (∀ (tickers : List String)
        (fetch fetch' : List String → Option (List SnapItem)) (b0 : List String),
      fetch' b0 = none → (∀ b, b ≠ b0 → fetch' b = fetch b) →
      ∀ t, ¬ respWrites (fetch b0) t →
        fetchSnapshotIndex tickers fetch' t = fetchSnapshotIndex tickers fetch t) := by
  refine ⟨fun tickers => ⟨batchesOf25_join tickers, batchesOf25_mem tickers⟩,
    fun tickers fetch => rfl, ?_, ?_, ?_⟩
  · intro tickers fetch t item h
    rcases mergeFold_some t item ((batchesOf25 tickers).map fetch) (fun _ => none) h with
      h1 | ⟨hts, hes, r, hr, items, hi, hmem⟩
    · cases h1
    · obtain ⟨b, hb, rfl⟩ := List.mem_map.mp hr
      exact ⟨hts, hes, b, hb, items, hi, hmem⟩
  · intro tickers fetch t ⟨b, hb, hw⟩
    exact mergeFold_isSome t ((batchesOf25 tickers).map fetch) (fun _ => none)
      (Or.inr ⟨fetch b, List.mem_map_of_mem fetch hb, hw⟩)
  · intro tickers fetch fetch' b0 hb0 hother t hnw
    refine (mergeFold_agree t ((batchesOf25 tickers).map fetch)
      ((batchesOf25 tickers).map fetch') (fun _ => none) (fun _ => none) ?_ rfl).symm
    induction batchesOf25 tickers with
    | nil => exact List.Forall₂.nil
    | cons b bs ih =>
        rw [List.map_cons, List.map_cons]
        refine List.Forall₂.cons ?_ ih
        by_cases hbb : b = b0
        · exact Or.inr ⟨hbb ▸ hb0, hbb ▸ hnw⟩
        · exact Or.inl (hother b hbb).symm

/-- Witness for C9: a two-identifier list forming one batch, its merged
index, and the degradation of the (only) batch. -/
theorem snapshot_batching_spec_witness :
    (fetchSnapshotIndex ["A", "B"]
        (fun b => if b = ["A", "B"] then some [⟨"A", false⟩] else none) "A"
      = some ⟨"A", false⟩) ∧
    ((⟨"A", false⟩ : SnapItem).ticker = "A" ∧
      (⟨"A", false⟩ : SnapItem).error = false ∧
      ∃ b ∈ batchesOf25 ["A", "B"], ∃ items,
        (fun b => if b = ["A", "B"] then some [⟨"A", false⟩] else none) b
          = some items ∧ (⟨"A", false⟩ : SnapItem) ∈ items) ∧
    (fetchSnapshotIndex ["A", "B"]
        (fun b => if b = ["A", "B"] then some [⟨"A", false⟩] else none) "A").isSome ∧
    fetchSnapshotIndex ["A", "B"]
        (fun b => if b = ["A", "B"] then (none : Option (List SnapItem))
          else (fun b2 => if b2 = ["A", "B"] then some [⟨"A", false⟩] else none) b) "Z"
      = fetchSnapshotIndex ["A", "B"]
          (fun b => if b = ["A", "B"] then some [⟨"A", false⟩] else none) "Z" := by
  refine ⟨by decide, ?_, ?_, ?_⟩
  · exact snapshot_batching_spec.2.2.1 ["A", "B"] _ "A" ⟨"A", false⟩ (by decide)
  · exact snapshot_batching_spec.2.2.2.1 ["A", "B"] _ "A"
      ⟨["A", "B"], by decide, ⟨[⟨"A", false⟩], by decide, ⟨"A", false⟩,
        by decide, by decide, by decide⟩⟩
  · refine snapshot_batching_spec.2.2.2.2 ["A", "B"] _ _ ["A", "B"]
      (by decide) (fun b hb => by simp [hb]) "Z" ?_
    rintro ⟨items, hi, it, hmem, hts, hes⟩
    rw [if_pos rfl] at hi
    cases hi
    rcases List.mem_singleton.mp hmem with rfl
    exact absurd hts (by decide)

/-! ### C7 — live option-chain assembly -/

/-- Every contract accumulated by the chain loop comes from a results
entry that passed the skip test, and is built by `mkOptionContract`. -/
theorem chainStep_foldl_mem (c : OptionContract) :
    ∀ (results : List ContractSnapshot)
      (acc : List OptionContract × List OptionContract),
      (c ∈ (results.foldl chainStep acc).1 ∨ c ∈ (results.foldl chainStep acc).2) →
      (c ∈ acc.1 ∨ c ∈ acc.2) ∨
      ∃ snap ∈ results, essentialDataPresent snap = true ∧ c = mkOptionContract snap := by
  intro results
  induction results with
  | nil => intro acc h; exact Or.inl h
  | cons snap rest ih =>
      intro acc h
      rw [List.foldl_cons] at h
      rcases ih (chainStep acc snap) h with h1 | ⟨snap2, hmem, hess, hc⟩
      · by_cases he : essentialDataPresent snap = true
        · by_cases hct : (mkOptionContract snap).contract_type = "call"
          · simp only [chainStep, he, if_true, hct, if_pos] at h1
            rcases h1 with h1 | h1
            · rcases List.mem_append.mp h1 with h2 | h2
              · exact Or.inl (Or.inl h2)
              · exact Or.inr ⟨snap, List.mem_cons_self _ _, he,
                  List.mem_singleton.mp h2⟩
            · exact Or.inl (Or.inr h1)
          · simp only [chainStep, he, if_true, hct, if_false] at h1
            rcases h1 with h1 | h1
            · exact Or.inl (Or.inl h1)
            · rcases List.mem_append.mp h1 with h2 | h2
              · exact Or.inl (Or.inr h2)
              · exact Or.inr ⟨snap, List.mem_cons_self _ _, he,
                  List.mem_singleton.mp h2⟩
        · rw [chainStep, if_neg he] at h1
          exact Or.inl h1
      · exact Or.inr ⟨snap2, List.mem_cons.mpr (Or.inr hmem), hess, hc⟩

/-- C7 (amended): in the service live branch, a contract snapshot
failing the essential-data test contributes nothing to the chain; every
included contract is built from a results entry that passed the test,
with `is_in_the_money` copied from the provider's `in_the_money` field
(default `false`) rather than recomputed; and calls and puts are each
sorted ascending by strike. -/
theorem live_chain_spec :
    (∀ (u : ℚ) (pre post : List ContractSnapshot) (snap : ContractSnapshot),
      essentialDataPresent snap = false →
      processLiveChain u (pre ++ snap :: post) = processLiveChain u (pre ++ post)) ∧
    (∀ (u : ℚ) (results : List ContractSnapshot) (c : OptionContract),
      c ∈ (processLiveChain u results).calls ∨ c ∈ (processLiveChain u results).puts →
      ∃ snap ∈ results, essentialDataPresent snap = true ∧
        c = mkOptionContract snap ∧ c.is_itm = snap.in_the_money.getD false) ∧
    (∀ (u : ℚ) (results : List ContractSnapshot),
      (processLiveChain u results).calls.Pairwise
        (fun a b => a.strike_price ≤ b.strike_price) ∧
      (processLiveChain u results).puts.Pairwise
        (fun a b => a.strike_price ≤ b.strike_price)) := by
  refine ⟨?_, ?_, ?_⟩
  · intro u pre post snap hsnap
    have hacc : accumulateChain (pre ++ snap :: post) = accumulateChain (pre ++ post) := by
      unfold accumulateChain
      rw [List.foldl_append, List.foldl_append, List.foldl_cons]
      congr 1
      rw [chainStep, if_neg (by simp [hsnap])]
    simp [processLiveChain, hacc]
  · intro u results c hc
    have hmem : c ∈ (accumulateChain results).1 ∨ c ∈ (accumulateChain results).2 := by
      rcases hc with hc | hc
      · exact Or.inl (List.mem_mergeSort.mp hc)
      · exact Or.inr (List.mem_mergeSort.mp hc)
    rcases chainStep_foldl_mem c results ([], []) hmem with h1 | ⟨snap, hmem2, hess, hcc⟩
    · simp at h1
    · exact ⟨snap, hmem2, hess, hcc, by rw [hcc]; rfl⟩
  · intro u results
    have hs : ∀ l : List OptionContract,
        (sortByStrike l).Pairwise (fun a b => a.strike_price ≤ b.strike_price) := by
      intro l
      unfold sortByStrike
      refine List.Pairwise.imp (fun h => of_decide_eq_true h) ?_
      exact @List.sorted_mergeSort OptionContract
        (fun a b => decide (a.strike_price ≤ b.strike_price))
        (fun a b c h1 h2 => decide_eq_true
          (le_trans (of_decide_eq_true h1) (of_decide_eq_true h2)))
        (fun a b => by simpa using le_total a.strike_price b.strike_price) l
    exact ⟨hs _, hs _⟩

unseal List.merge List.mergeSort Rat.mul Rat.add Rat.sub Rat.inv Rat.ofScientific in
/-- Counterexample for C7 as stated: a call contract with strike 100
under an underlying price of 150 whose provider snapshot lacks the
`in_the_money` field is included with `is_itm = false`, although the
claimed formula (call with strike below the underlying) gives `true`. -/
theorem live_chain_itm_counterexample :
    (processLiveChain 150
      [⟨⟨some "O:T1", some 100, some "call", none, none⟩,
        ⟨none, none, none, none, none⟩, none, ⟨some 1, some 2⟩, none⟩]).calls
      = [⟨"O:T1", 100, "call", 1, 2, none, none, none, none, none, none, none,
          none, false⟩] ∧
    specIsITM ⟨"O:T1", 100, "call", 1, 2, none, none, none, none, none, none,
        none, none, false⟩ 150 = true ∧
    (⟨"O:T1", 100, "call", 1, 2, none, none, none, none, none, none, none,
        none, false⟩ : OptionContract).is_itm = false :=
  ⟨by decide, by decide, rfl⟩

unseal List.merge List.mergeSort Rat.mul Rat.add Rat.sub Rat.inv Rat.ofScientific in
/-- Witness for C7's amended statement at concrete snapshots. -/
theorem live_chain_spec_witness :
    (essentialDataPresent ⟨⟨none, none, none, none, none⟩,
        ⟨none, none, none, none, none⟩, none, ⟨none, none⟩, none⟩ = false ∧
      processLiveChain 150 ([] ++ ⟨⟨none, none, none, none, none⟩,
          ⟨none, none, none, none, none⟩, none, ⟨none, none⟩, none⟩ :: [])
        = processLiveChain 150 ([] ++ [])) ∧
    ((⟨"O:T1", 100, "call", 1, 2, none, none, none, none, none, none, none,
        none, false⟩ : OptionContract) ∈
        (processLiveChain 150
          [⟨⟨some "O:T1", some 100, some "call", none, none⟩,
            ⟨none, none, none, none, none⟩, none, ⟨some 1, some 2⟩, none⟩]).calls ∨
      (⟨"O:T1", 100, "call", 1, 2, none, none, none, none, none, none, none,
        none, false⟩ : OptionContract) ∈
        (processLiveChain 150
          [⟨⟨some "O:T1", some 100, some "call", none, none⟩,
            ⟨none, none, none, none, none⟩, none, ⟨some 1, some 2⟩, none⟩]).puts) ∧
    (∃ snap ∈ [(⟨⟨some "O:T1", some 100, some "call", none, none⟩,
          ⟨none, none, none, none, none⟩, none, ⟨some 1, some 2⟩, none⟩ :
          ContractSnapshot)],
      essentialDataPresent snap = true ∧
      (⟨"O:T1", 100, "call", 1, 2, none, none, none, none, none, none, none,
        none, false⟩ : OptionContract) = mkOptionContract snap ∧
      (⟨"O:T1", 100, "call", 1, 2, none, none, none, none, none, none, none,
        none, false⟩ : OptionContract).is_itm = snap.in_the_money.getD false) :=
  ⟨⟨by decide, live_chain_spec.1 150 [] [] _ (by decide)⟩, by decide,
    live_chain_spec.2.1 150 _ _ (by decide)⟩

/-! ### C8 — missing leg data -/

/-- The conditions caught by the per-leg guard: snapshot absent, error
marker set, or Greeks missing. -/
def legGuardBad (m : String → Option Snapshot) (leg : OptionLeg) : Prop :=
  m leg.option_ticker = none ∨
  ∃ snap, m leg.option_ticker = some snap ∧ (snap.error = true ∨ snap.greeks = none)

/-- A snapshot that passes the guard but lacks the quote dictionary. -/
def legQuoteMissing (m : String → Option Snapshot) (leg : OptionLeg) : Prop :=
  ∃ snap, m leg.option_ticker = some snap ∧ snap.error = false ∧
    snap.greeks ≠ none ∧ snap.last_quote = none

theorem resolveLeg_guardBad_error (m : String → Option Snapshot) (leg : OptionLeg)
    (h : legGuardBad m leg) :
    resolveLeg m leg
      = .error ⟨"Could not find valid snapshot data for leg: " ++ leg.option_ticker, 400⟩ := by
  rcases h with hnone | ⟨snap, hsnap, herr | hg⟩
  · simp [resolveLeg, hnone]
  · simp [resolveLeg, hsnap, herr]
  · by_cases herr2 : snap.error = true
    · simp [resolveLeg, hsnap, herr2]
    · simp [resolveLeg, hsnap, herr2, hg]

theorem resolveLeg_quoteMissing_error (m : String → Option Snapshot)
    (leg : OptionLeg) (h : legQuoteMissing m leg) :
    resolveLeg m leg
      = .error ⟨"An unexpected error occurred during analysis: KeyError last_quote", 500⟩ := by
  obtain ⟨snap, hsnap, herr, hg, hq⟩ := h
  obtain ⟨gks, hgks⟩ := Option.ne_none_iff_exists'.mp hg
  simp [resolveLeg, hsnap, herr, hgks, hq]

/-- A successful analysis means the leg loop succeeded. -/
theorem analyzeStrategy_ok_inv (m : String → Option Snapshot)
    (legs : List OptionLeg) (r : AnalyzedStrategy)
    (hok : analyzeStrategy m legs = .ok r) :
    ∃ rls, resolveLegs m legs = .ok rls := by
  cases legs with
  | nil => simp [analyzeStrategy] at hok
  | cons l0 rest =>
      cases h1 : underlyingTickerOf l0.option_ticker with
      | none => simp [analyzeStrategy, h1] at hok
      | some ut =>
          cases h2 : m ut with
          | none => simp [analyzeStrategy, h1, h2] at hok
          | some ss =>
              cases h3 : resolveUnderlyingPrice ss with
              | none => simp [analyzeStrategy, h1, h2, h3] at hok
              | some u =>
                  cases h4 : resolveLegs m (l0 :: rest) with
                  | error e => simp [analyzeStrategy, h1, h2, h3, h4] at hok
                  | ok rls => exact ⟨rls, rfl⟩

/-- C8 (amended): a requested leg whose snapshot is absent from the
index, carries an error marker, or lacks Greeks makes `resolveLeg` fail
with the 400 data-unavailable error naming that leg's identifier; a leg
whose snapshot has Greeks but lacks a quote instead fails with the
generic 500 unexpected-error (which does not name the leg); in either
case no analysis result is produced. -/
theorem leg_data_unavailable_spec :
    (∀ (m : String → Option Snapshot) (leg : OptionLeg), legGuardBad m leg →
      resolveLeg m leg = .error
        ⟨"Could not find valid snapshot data for leg: " ++ leg.option_ticker, 400⟩) ∧
    (∀ (m : String → Option Snapshot) (leg : OptionLeg), legQuoteMissing m leg →
      resolveLeg m leg = .error
        ⟨"An unexpected error occurred during analysis: KeyError last_quote", 500⟩) ∧
    (∀ (m : String → Option Snapshot) (legs : List OptionLeg) (leg : OptionLeg),
      leg ∈ legs → legGuardBad m leg ∨ legQuoteMissing m leg →
      ∀ r, analyzeStrategy m legs ≠ .ok r) := by
  refine ⟨resolveLeg_guardBad_error, resolveLeg_quoteMissing_error, ?_⟩
  intro m legs leg hmem hbad r hok
  obtain ⟨rls, hrls⟩ := analyzeStrategy_ok_inv m legs r hok
  obtain ⟨rl, hrl⟩ := resolveLegs_ok_forall m legs rls hrls leg hmem
  rcases hbad with hb | hb
  · rw [resolveLeg_guardBad_error m leg hb] at hrl
    exact Except.noConfusion hrl
  · rw [resolveLeg_quoteMissing_error m leg hb] at hrl
    exact Except.noConfusion hrl

unseal Rat.mul Rat.add Rat.sub Rat.inv Rat.ofScientific in
/-- Counterexample for C8 as stated: a leg whose snapshot has Greeks but
no quote fails with status 500 (the generic unexpected-error), not with
a client-class 400 data-unavailable error naming the leg. -/
theorem leg_quote_missing_counterexample :
    analyzeStrategy
        (fun t => if t = "O:AB1" then
            some ⟨false, some ⟨1/2, 1/10, -1/10, 1/5⟩, none,
                  some ⟨100, "call"⟩, none, none⟩
          else if t = "AB" then some ⟨false, none, none, none, some 100, none⟩
          else none)
        [⟨"O:AB1", "BUY", 1⟩]
      = .error ⟨"An unexpected error occurred during analysis: KeyError last_quote", 500⟩ ∧
    (500 : ℕ) ≠ 400 :=
  ⟨by decide, by decide⟩

unseal Rat.mul Rat.add Rat.sub Rat.inv Rat.ofScientific in
/-- Witness for C8's amended statement at concrete snapshot maps. -/
theorem leg_data_unavailable_spec_witness :
    (resolveLeg (fun _ => none) ⟨"O:AB1", "BUY", 1⟩
      = .error ⟨"Could not find valid snapshot data for leg: " ++ "O:AB1", 400⟩) ∧
    (resolveLeg (fun t => if t = "O:AB1" then
        some ⟨false, some ⟨1/2, 1/10, -1/10, 1/5⟩, none,
              some ⟨100, "call"⟩, none, none⟩ else none) ⟨"O:AB1", "BUY", 1⟩
      = .error ⟨"An unexpected error occurred during analysis: KeyError last_quote", 500⟩) ∧
    analyzeStrategy (fun _ => none) [⟨"O:AB1", "BUY", 1⟩]
      ≠ .ok ⟨0, 0, [], 0, 0, 0, 0, 0, []⟩ :=
  ⟨leg_data_unavailable_spec.1 (fun _ => none) ⟨"O:AB1", "BUY", 1⟩ (Or.inl rfl),
   leg_data_unavailable_spec.2.1 _ ⟨"O:AB1", "BUY", 1⟩
     ⟨⟨false, some ⟨1/2, 1/10, -1/10, 1/5⟩, none, some ⟨100, "call"⟩, none, none⟩,
       by decide, rfl, by decide, rfl⟩,
   leg_data_unavailable_spec.2.2 (fun _ => none) [⟨"O:AB1", "BUY", 1⟩]
     ⟨"O:AB1", "BUY", 1⟩ (List.mem_singleton.mpr rfl) (Or.inl (Or.inl rfl))
     ⟨0, 0, [], 0, 0, 0, 0, 0, []⟩⟩

/-! ### C2 — historical volatility -/

theorem rollOne_cons (x : ℝ) (xs : List ℝ) :
    rollOne (x :: xs)
      = (x :: xs).getLast (List.cons_ne_nil x xs) :: (x :: xs).dropLast := by
  unfold rollOne
  rw [List.getLast?_eq_getLast _ (List.cons_ne_nil x xs)]

theorem logReturns_length (l : List ℝ) : (logReturns l).length = l.length := by
  cases l with
  | nil => rfl
  | cons x xs =>
      rw [logReturns, rollOne_cons]
      simp [List.length_zip]

theorem dailyLogReturns_length (l : List ℝ) :
    (dailyLogReturns l).length = l.length - 1 := by
  cases l with
  | nil => rfl
  | cons x xs => simp [dailyLogReturns, List.length_zip]

theorem zip_shift_log : ∀ (l : List ℝ) (x : ℝ),
    (l.zip ((x :: l).dropLast)).map (fun pq => Real.log (pq.1 / pq.2))
      = ((x :: l).zip l).map (fun pq => Real.log (pq.2 / pq.1)) := by
  intro l
  induction l with
  | nil => intro x; rfl
  | cons b l2 ih =>
      intro x
      have hd : (x :: b :: l2).dropLast = x :: (b :: l2).dropLast := rfl
      rw [hd]
      simp only [List.zip_cons_cons, List.map_cons]
      rw [ih b]

/-- The `np.roll` form of the log-return series: the first entry is the
wrap-around ratio of the first to the last price, and the remaining
entries are the true daily log returns. -/
theorem logReturns_cons_eq (x : ℝ) (xs : List ℝ) :
    logReturns (x :: xs)
      = Real.log (x / (x :: xs).getLast (List.cons_ne_nil x xs))
          :: dailyLogReturns (x :: xs) := by
  rw [logReturns, rollOne_cons]
  simp only [List.zip_cons_cons, List.map_cons]
  congr 1
  exact zip_shift_log xs x

set_option maxHeartbeats 1000000 in
/-- C2 (amended): for fewer prices than the window the result is empty;
otherwise the result has the input's length, its first `window - 1`
entries are null, the entry at each index `i ≥ window` is the annualized
unbiased rolling standard deviation of the `window` daily log returns
`ln(p_t / p_{t-1})`, `t = i-window+1 .. i`, while the first non-null
entry (index `window - 1`) instead uses the wrap-around value
`ln(p_0 / p_{n-1})` in place of the nonexistent return `r_0`. -/
theorem calculate_hv_spec :
    (∀ (prices : List ℝ) (window : ℕ), prices.length < window →
      calculate_hv prices window = []) ∧
    (∀ (prices : List ℝ) (window : ℕ), 0 < window → window ≤ prices.length →
      (calculate_hv prices window).length = prices.length ∧
      (∀ i, i < window - 1 → (calculate_hv prices window).get? i = some none) ∧
      (∀ i, window ≤ i → i < prices.length →
        (calculate_hv prices window).get? i
          = some (some (sampleStd
              (((dailyLogReturns prices).drop (i - window)).take window)
              * Real.sqrt 252))) ∧
      (∀ (p0 : ℝ) (ps : List ℝ), prices = p0 :: ps →
        (calculate_hv prices window).get? (window - 1)
          = some (some (sampleStd
              (Real.log (p0 / (p0 :: ps).getLast (List.cons_ne_nil p0 ps))
                :: (dailyLogReturns prices).take (window - 1))
              * Real.sqrt 252)))) := by
  constructor
  · intro prices window h
    rw [calculate_hv, if_pos h]
  · intro prices window hw hlen
    have hlr : (logReturns prices).length = prices.length := logReturns_length prices
    have hhv : (hvSeries prices window).length = prices.length - window + 1 := by
      rw [hvSeries]
      simp [hlr]
    have hpad : prices.length - (hvSeries prices window).length = window - 1 := by
      rw [hhv]; omega
    have hcalc : calculate_hv prices window
        = List.replicate (window - 1) (none : Option ℝ)
          ++ (hvSeries prices window).map some := by
      rw [calculate_hv, if_neg (not_lt.mpr hlen), hpad]
    have hget : ∀ k, k < prices.length - window + 1 →
        (hvSeries prices window).get? k
          = some (sampleStd (((logReturns prices).drop k).take window)
              * Real.sqrt 252) := by
      intro k hk
      rw [hvSeries, List.get?_map, List.get?_range (by rw [hlr]; omega)]
      rfl
    refine ⟨?_, ?_, ?_, ?_⟩
    · rw [hcalc]
      simp only [List.length_append, List.length_replicate, List.length_map, hhv]
      omega
    · intro i hi
      rw [hcalc, List.get?_append (by simpa using hi)]
      rw [List.get?_eq_getElem?, List.getElem?_replicate, if_pos hi]
    · intro i hiw hin
      rw [hcalc, List.get?_append_right (by simp; omega)]
      simp only [List.length_replicate]
      rw [List.get?_map, hget (i - (window - 1)) (by omega)]
      obtain ⟨p0, ps, rfl⟩ := List.exists_cons_of_ne_nil
        (by intro h; rw [h] at hin; simp at hin : prices ≠ [])
      rw [logReturns_cons_eq]
      have hk : i - (window - 1) = (i - window) + 1 := by omega
      rw [hk, List.drop_succ_cons]
      rfl
    · intro p0 ps hpp
      subst hpp
      rw [hcalc, List.get?_append_right (by simp)]
      simp only [List.length_replicate, Nat.sub_self]
      rw [List.get?_map, hget 0 (by omega)]
      simp only [List.drop_zero]
      rw [logReturns_cons_eq]
      obtain ⟨w1, rfl⟩ : ∃ w1, window = w1 + 1 := ⟨window - 1, by omega⟩
      simp only [Nat.add_sub_cancel, List.take_succ_cons]
      rfl

/-- Witness for C2's amended statement on a concrete three-price
series. -/
theorem calculate_hv_spec_witness :
    (([(1 : ℝ)].length < 2) ∧ calculate_hv [(1 : ℝ)] 2 = []) ∧
    (0 < 2 ∧ 2 ≤ ([1, 1, Real.exp 1] : List ℝ).length ∧
      (calculate_hv [1, 1, Real.exp 1] 2).length = ([1, 1, Real.exp 1] : List ℝ).length ∧
      (calculate_hv [1, 1, Real.exp 1] 2).get? 2
        = some (some (sampleStd
            (((dailyLogReturns [1, 1, Real.exp 1]).drop 0).take 2) * Real.sqrt 252))) := by
  refine ⟨⟨by norm_num, calculate_hv_spec.1 [1] 2 (by norm_num)⟩,
    by norm_num, by norm_num, ?_, ?_⟩
  · exact (calculate_hv_spec.2 [1, 1, Real.exp 1] 2 (by norm_num) (by norm_num)).1
  · exact (calculate_hv_spec.2 [1, 1, Real.exp 1] 2 (by norm_num)
      (by norm_num)).2.2.1 2 (by norm_num) (by norm_num)

/-- Counterexample for C2 as stated: for prices `[1, 1, e]` with window
2, the first non-null entry (index 1) is not the annualized sample
standard deviation of the daily log returns ending at that index (which
are all zero, the first two prices being equal), because `np.roll`
places the wrap-around value `ln(p_0 / p_2)` in the first window. -/
theorem calculate_hv_counterexample :
    specReturnsWindow [1, 1, Real.exp 1] 2 1 = [0] ∧
    sampleStd [(0 : ℝ)] = 0 ∧
    (calculate_hv [1, 1, Real.exp 1] 2).get? 1
      = some (some (sampleStd [Real.log (1 / Real.exp 1), Real.log (1 / 1)]
          * Real.sqrt 252)) ∧
    sampleStd [Real.log (1 / Real.exp 1), Real.log (1 / 1)] * Real.sqrt 252 ≠ 0 ∧
    (calculate_hv [1, 1, Real.exp 1] 2).get? 1
      ≠ some (some (sampleStd (specReturnsWindow [1, 1, Real.exp 1] 2 1)
          * Real.sqrt 252)) := by
  have h1 : specReturnsWindow [1, 1, Real.exp 1] 2 1 = [0] := by
    norm_num [specReturnsWindow, dailyLogReturns]
  have h2 : sampleStd [(0 : ℝ)] = 0 := by
    norm_num [sampleStd, Real.sqrt_zero]
  have h3 : (calculate_hv [1, 1, Real.exp 1] 2).get? 1
      = some (some (sampleStd [Real.log (1 / Real.exp 1), Real.log (1 / 1)]
          * Real.sqrt 252)) := by
    norm_num [calculate_hv, hvSeries, logReturns, rollOne, List.range_succ]
  have hlog : Real.log (1 / Real.exp 1) = -1 := by
    rw [one_div, Real.log_inv, Real.log_exp]
  have hlog1 : Real.log ((1 : ℝ) / 1) = 0 := by norm_num
  have hstd : sampleStd [(-1 : ℝ), 0] = Real.sqrt (1/2) := by
    norm_num [sampleStd]
  have h4 : sampleStd [Real.log (1 / Real.exp 1), Real.log (1 / 1)]
      * Real.sqrt 252 ≠ 0 := by
    rw [hlog, hlog1, hstd]
    exact (mul_pos (Real.sqrt_pos.mpr (by norm_num))
      (Real.sqrt_pos.mpr (by norm_num))).ne'
  refine ⟨h1, h2, h3, h4, ?_⟩
  rw [h3, h1, h2, zero_mul]
  intro hc
  injection hc with hc1
  injection hc1 with hc2
  exact h4 hc2

end StrategyHunter
